import Mathlib

/-!
Verification development for the real-time interview-assistant server
(audio gateway, VAD/ASR pipeline, session state, LLM client).

Shallow embedding: each definition below translates one piece of the
Python source (`server/gateway/ws_audio.py`, `server/asr/pipeline.py`,
`server/asr/session.py`, `server/core/state.py`, `server/nlp/llm_api.py`,
`server/config.py`, `server/core/config.py`) into an executable Lean
function.  Byte strings are `List Nat`, text is `List Char`, machine
floats used only for comparisons of small rationals are replaced by
exact `ℚ` / `Nat` arithmetic at points where double rounding provably
cannot change the comparison outcome (noted at each definition).
-/

/- ===================== generic text helpers ===================== -/

/-- Whether `n` is a prefix of `l` (character lists, used for Python's
substring test below). -/
def leadMatches : List Char → List Char → Bool
  | [], _ => true
  | _ :: _, [] => false
  | a :: as, b :: bs => a == b && leadMatches as bs

/-- Python's `needle in hay` contiguous-substring test on strings,
embedded on character lists. -/
def containsSub (n : List Char) : List Char → Bool
  | [] => n.isEmpty
  | h :: t => leadMatches n (h :: t) || containsSub n t

/-- Python's `str.lower()` (ASCII behaviour; all inputs in this
development are ASCII). -/
def toLowerList (s : List Char) : List Char := s.map Char.toLower

/-- Python's `str.strip()`: drop leading and trailing whitespace. -/
def pyStrip (l : List Char) : List Char :=
  ((l.dropWhile Char.isWhitespace).reverse.dropWhile Char.isWhitespace).reverse

/- ===================== C1: speaker tagging ===================== -/

/-- Source: `server/gateway/ws_audio.py` lines 71 and 86: both `on_partial` and
`on_final` compute `speaker = "interviewer" if source == "sys" else "user"`. -/
def speakerFor (source : String) : String :=
  if source = "sys" then "interviewer" else "user"

/- ===================== C2: binary frame handling ===================== -/

/-- Source: `server/gateway/ws_audio.py` lines 215-247: extraction of the PCM
byte string from a binary WebSocket frame `b`.

The code attempts `struct.unpack('<I d I B I f', b[:25])` whenever
`len(b) >= 25`.  That format has fixed size 4+8+4+1+4+4 = 25 bytes with
no alignment under `<`, and the slice `b[:25]` has exactly 25 bytes, so
the unpack always succeeds (every byte pattern is a valid u32/f64/u8/f32);
the `except struct.error` fallback at line 236 is unreachable for
`len(b) >= 25`.  Hence: `len(b) >= 32` drops 32 leading bytes,
`25 <= len(b) < 32` drops 25, `len(b) < 25` keeps the whole payload.
An odd trailing byte is then trimmed (line 243). -/
def extractAudio (b : List Nat) : List Nat :=
  let audioData :=
    if 25 ≤ b.length then
      if 32 ≤ b.length then b.drop 32 else b.drop 25
    else b
  if audioData.length % 2 ≠ 0 then audioData.dropLast else audioData

/- ===================== C3: final dedup ===================== -/

/-- The punctuation class of `re.sub(r'[。！？，、\s]', '', text)` in
`_is_similar_text` (`server/asr/pipeline.py` lines 278-279). -/
def punctChars : List Char := ['。', '！', '？', '，', '、']

/-- Strip punctuation and whitespace: `re.sub(r'[。！？，、\s]', '', t)`.
(`Char.isWhitespace` agrees with Python's `\s` on the ASCII and CJK text
used throughout; no counterexample below depends on exotic whitespace.) -/
def cleanText (t : List Char) : List Char :=
  t.filter (fun c => !(punctChars.contains c || c.isWhitespace))

/-- Source: `ASRPipeline._is_similar_text` (`server/asr/pipeline.py` lines 266-292).
The float comparison `min/max > 0.7` is replaced by the exact equivalent
`7 * max < 10 * min` (for integer lengths below 2^50 the double rounding
of `min/max` and of the literal `0.7` cannot flip this comparison). -/
def isSimilarText (t1 t2 : List Char) : Bool :=
  if t1.isEmpty || t2.isEmpty then false
  else if t1 == t2 then true
  else
    let c1 := cleanText t1
    let c2 := cleanText t2
    if c1 == c2 then true
    else if (0 < c1.length && 0 < c2.length)
        && (containsSub c1 c2 || containsSub c2 c1)
        && (7 * max c1.length c2.length < 10 * min c1.length c2.length) then
      true
    else false

/-- Constant `duplicate_threshold = 2.0` seconds (`server/asr/pipeline.py` line 72). -/
def duplicateThreshold : ℚ := 2

/-- The dedup gate of `_process_segment` (`server/asr/pipeline.py`
lines 364-373): a new final `newText` is suppressed iff the time since
the previous final is `< 2 s` and the texts are similar. -/
def suppressFinal (timeSince : ℚ) (newText lastText : List Char) : Bool :=
  decide (timeSince < duplicateThreshold) && isSimilarText newText lastText

/-- The dedup similarity exactly as the claim words it ("equal after
stripping, or one STRICTLY contains the other with length ratio
(shorter/longer) ≥ 0.7"); written from the spec, to be compared with
`isSimilarText` from the source.  Ratio `≥ 0.7` is the exact
`7 * max ≤ 10 * min`. -/
def claimSimilarGeq (t1 t2 : List Char) : Bool :=
  let c1 := cleanText t1
  let c2 := cleanText t2
  c1 == c2 ||
    ((containsSub c1 c2 || containsSub c2 c1) && !(c1 == c2)
      && (7 * max c1.length c2.length ≤ 10 * min c1.length c2.length))

/-- Same shape with the strict ratio `> 0.7` that the source actually
uses; this is the amended similarity predicate. -/
def specSimilarStrict (t1 t2 : List Char) : Bool :=
  let c1 := cleanText t1
  let c2 := cleanText t2
  c1 == c2 ||
    ((containsSub c1 c2 || containsSub c2 c1) && !(c1 == c2)
      && (7 * max c1.length c2.length < 10 * min c1.length c2.length))

/- ===================== C4: segment timeout ===================== -/

/-- Source: `server/asr/pipeline.py` lines 333-335: for a closed segment of `n`
samples at 16 kHz (`settings.ASR_SAMPLE_RATE`), the final recognition is
awaited with `timeout = min(max(segment_duration * 2 + 1.0, 2.0), 6.0)`.
Exact rational arithmetic; the double computation differs from ℚ by far
less than the gap to any comparison boundary used below. -/
def segmentTimeout (n : Nat) : ℚ :=
  let d : ℚ := (n : ℚ) / 16000
  min (max (d * 2 + 1) 2) 6

/-- The timeout formula exactly as the claim words it:
`min(max(2·duration, 2 s), 6 s)`.  Written from the spec, to be compared
with `segmentTimeout` from the source. -/
def claimSegmentTimeout (n : Nat) : ℚ :=
  let d : ℚ := (n : ℚ) / 16000
  min (max (2 * d) 2) 6

/-- Result of the awaited recognition in `_process_segment`:
`timeout` models the `asyncio.TimeoutError` branch (line 340), which
sets `raw_text = ""`. -/
inductive RecogResult where
  | ok (text : List Char)
  | timeout
deriving DecidableEq

/-- Value of `raw_text` after the try/except of `_process_segment`
(`server/asr/pipeline.py` lines 336-352). -/
def rawTextOf : RecogResult → List Char
  | RecogResult.ok t => t
  | RecogResult.timeout => []

/-- The emission gate at line 354 of `server/asr/pipeline.py`:
anything further (post-processing, dedup, `on_final`) runs only if
`raw_text.strip()` is non-empty. -/
def processSegmentEmits (r : RecogResult) : Bool :=
  !(pyStrip (rawTextOf r)).isEmpty

/- ===================== C5: outgoing seq numbers ===================== -/

/-- One outgoing server message of the audio gateway, classified by how
its `seq` field is produced (`server/gateway/ws_audio.py`):
`control` covers the `info`/`error` messages sent with a literal
`"seq": 0` (lines 39, 185-195, 201-205); `transcript` covers the
`partial`/`final` messages whose seq is `state.next_seq()`
(lines 76, 109; `server/asr/session.py` lines 56-59: `seq += 1; return seq`). -/
inductive OutEvent where
  | control
  | transcript
deriving DecidableEq

/-- The seq values carried by a run of outgoing messages, threading the
session's `seq` counter (initially 0). -/
def emitSeqs : Nat → List OutEvent → List Nat
  | _, [] => []
  | c, OutEvent.control :: es => 0 :: emitSeqs c es
  | c, OutEvent.transcript :: es => (c + 1) :: emitSeqs (c + 1) es

/-- Seq values of all outgoing messages of a connection. -/
def gatewaySeqs (es : List OutEvent) : List Nat := emitSeqs 0 es

/-- Seq values restricted to the `partial`/`final` messages. -/
def transcriptSeqs : Nat → List OutEvent → List Nat
  | _, [] => []
  | c, OutEvent.control :: es => transcriptSeqs c es
  | c, OutEvent.transcript :: es => (c + 1) :: transcriptSeqs (c + 1) es

/- ===================== C6: IDLE pre-roll eviction ===================== -/

/-- Constant `VAD_PRE_SPEECH_PADDING = 0.15` s (`server/config.py` line 54) at
16 kHz, expressed in samples: the float test
`sum(len(chunk) for chunk in segment_buffer) / 16000 > 0.15` is exactly
`sum > 2400` (integer sums below 2^50 divided by 16000 round to a double
within 2^-20 of the true value, far from the boundary unless the sum is
exactly 2400, where both sides round to the same double and the strict
test is false, matching `2400 > 2400` being false). -/
def preSpeechPadSamples : Nat := 2400

/-- The IDLE + unvoiced branch of `ASRPipeline.process_audio_chunk`
(`server/asr/pipeline.py` lines 192-198): append the frame, then, if
the total buffered duration exceeds `pre_speech_padding`, `pop(0)` the
single oldest frame (an `if`, not a loop).  Frames are represented by
their sample counts. -/
def idleUnvoicedStep (buffer : List Nat) (chunk : Nat) : List Nat :=
  let b := buffer ++ [chunk]
  if preSpeechPadSamples < b.sum then b.tail else b

/- ===================== C7: audio queue backpressure ===================== -/

/-- Constant `WS_AUDIO_QUEUE_MAX_SIZE = 12` (`server/config.py` line 62), the
`maxsize` of `SessionState.audio_q` (`server/asr/session.py` line 26). -/
def qMax : Nat := 12

/-- One interleaving step on the session's audio queue: the receiver's
enqueue of a frame, or the consumer's dequeue. -/
inductive QOp (α : Type) where
  | put (x : α)
  | take
deriving DecidableEq

/-- The receiver's enqueue under the drop-oldest policy
(`server/gateway/ws_audio.py` lines 250-262): if the queue is full
(`qsize ≥ maxsize`), `get_nowait()` removes the oldest frame, then
`put` appends the new frame (which now cannot block). -/
def enqueueDropOldest (q : List α) (x : α) : List α :=
  if qMax ≤ q.length then q.tail ++ [x] else q ++ [x]

/-- Effect of one queue operation on the queue contents (oldest first). -/
def qStep (q : List α) : QOp α → List α
  | QOp.put x => enqueueDropOldest q x
  | QOp.take => q.tail

/-- The queue contents after an arbitrary interleaving of enqueues and
dequeues, starting from the empty queue of a fresh session. -/
def runQ (ops : List (QOp α)) : List α := ops.foldl qStep []

/- ===================== C8: LLM chat parameter negotiation ===================== -/

/-- Source: the if/elif ladder of `LLMAPI.chat` (`server/nlp/llm_api.py`
lines 68-79), abstracted over the five substring tests it performs:
first branch (claude model or anthropic base URL) sets
`use_max_completion_tokens` only; the elif branch (gpt-5 / gpt-4o /
gpt-4o-mini model) sets both `use_max_completion_tokens` and
`use_default_temperature`. -/
def negotiateFlags (claudeHit anthropicHit g5Hit g4oHit g4oMiniHit : Bool) : Bool × Bool :=
  if claudeHit || anthropicHit then (true, false)
  else if g5Hit || g4oHit || g4oMiniHit then (true, true)
  else (false, false)

/-- Source: `LLMAPI.chat` parameter negotiation (`server/nlp/llm_api.py`
lines 63-79): returns `(use_max_completion_tokens, use_default_temperature)`.
The five tests are `"claude" in model_lower`,
`"anthropic" in self.base_url.lower()`, `"gpt-5" in model_lower`,
`"gpt-4o" in model_lower` and `"gpt-4o-mini" in model_lower`. -/
def chatParamFlags (model baseUrl : List Char) : Bool × Bool :=
  negotiateFlags
    (containsSub "claude".toList (toLowerList model))
    (containsSub "anthropic".toList (toLowerList baseUrl))
    (containsSub "gpt-5".toList (toLowerList model))
    (containsSub "gpt-4o".toList (toLowerList model))
    (containsSub "gpt-4o-mini".toList (toLowerList model))

/-- Which optional keys the request body of `LLMAPI.chat` carries. -/
structure RequestShape where
  hasMaxCompletionTokens : Bool
  hasMaxTokens : Bool
  hasTemperature : Bool
deriving DecidableEq

/-- Source: `server/nlp/llm_api.py` lines 82-101: the request params get
`max_completion_tokens` exactly when the first flag is set (else
`max_tokens`), and `temperature` exactly when the second flag is not set. -/
def buildChatRequest (model baseUrl : List Char) : RequestShape :=
  let f := chatParamFlags model baseUrl
  { hasMaxCompletionTokens := f.1
    hasMaxTokens := !f.1
    hasTemperature := !f.2 }

/-- The claim's model-family heuristic for `max_completion_tokens`,
written from the spec's words: model name matching the globs `gpt-5*`,
`gpt-4o*`, `o1*`, `o3*`, `claude*`, or base URL containing `anthropic`.
To be compared with `buildChatRequest` from the source. -/
def claimUsesMaxCompletionTokens (model baseUrl : List Char) : Bool :=
  (["gpt-5".toList, "gpt-4o".toList, "o1".toList, "o3".toList, "claude".toList].any
      (fun p => leadMatches p (toLowerList model)))
    || containsSub "anthropic".toList (toLowerList baseUrl)

/-- The claim's model-family heuristic for omitting `temperature`,
written from the spec's words: globs `gpt-5*`, `o1*`, `o3*`. -/
def claimOmitsTemperature (model : List Char) : Bool :=
  ["gpt-5".toList, "o1".toList, "o3".toList].any
    (fun p => leadMatches p (toLowerList model))

/- ===================== C9/C10: dialogue history ===================== -/

/-- Constant `CHAT_HISTORY_MAX = 50` (`server/core/config.py` line 21), the
`maxlen` of `SessionState.chat_history` (`server/core/state.py` line 53). -/
def chatHistoryMax : Nat := 50

/-- One dialogue entry as stored by `add_to_history`
(`server/core/state.py` lines 123-128); the timestamp and metadata
fields play no role in the bounded-log claims and are omitted. -/
structure HistEntry where
  content : List Char
  speaker : List Char
deriving DecidableEq

/-- Python `collections.deque(maxlen=50).append`: append on the right, and if
the deque would exceed `maxlen`, discard from the left down to `maxlen`. -/
def dequeAppend (h : List HistEntry) (e : HistEntry) : List HistEntry :=
  let h' := h ++ [e]
  if chatHistoryMax < h'.length then h'.drop (h'.length - chatHistoryMax) else h'

/-- Source: `SessionState.add_to_history` (`server/core/state.py` lines 99-131):
return unchanged when `not content or not content.strip()` (equivalently,
when the stripped content is empty); otherwise append an entry whose
content is `content.strip()`. -/
def add_to_history (h : List HistEntry) (content speaker : List Char) : List HistEntry :=
  if pyStrip content = [] then h
  else dequeAppend h { content := pyStrip content, speaker := speaker }

/-- The entry a single `add_to_history` call stores, if any. -/
def mkEntry? (p : List Char × List Char) : Option HistEntry :=
  if pyStrip p.1 = [] then none else some { content := pyStrip p.1, speaker := p.2 }

/-- History after a sequence of `add_to_history` calls
(content, speaker pairs), starting from history `h`. -/
def runHistory (h : List HistEntry) (inputs : List (List Char × List Char)) : List HistEntry :=
  inputs.foldl (fun acc p => add_to_history acc p.1 p.2) h

/- ===================== auxiliary predicate ===================== -/

/-- Decidable strict increase of a list of sequence numbers. -/
def strictIncr : List Nat → Bool
  | [] => true
  | [_] => true
  | a :: b :: t => decide (a < b) && strictIncr (b :: t)

/- ===================== helper lemmas ===================== -/

/-- Dropping a suffix of the pattern preserves a prefix match. -/
theorem leadMatches_append (p q l : List Char) :
    leadMatches (p ++ q) l = true → leadMatches p l = true := by
  induction p generalizing l with
  | nil => intro _; rfl
  | cons a as ih =>
    cases l with
    | nil => intro h; exact absurd h (by simp [leadMatches])
    | cons b bs =>
      simp only [List.cons_append, leadMatches, Bool.and_eq_true]
      exact fun ⟨h1, h2⟩ => ⟨h1, ih bs h2⟩

/-- Dropping a suffix of the needle preserves substring containment. -/
theorem containsSub_append (p q l : List Char) :
    containsSub (p ++ q) l = true → containsSub p l = true := by
  induction l with
  | nil =>
    simp only [containsSub, List.isEmpty_eq_true, List.append_eq_nil]
    exact fun ⟨h1, _⟩ => by simp [h1]
  | cons h t ih =>
    simp only [containsSub, Bool.or_eq_true]
    rintro (h1 | h2)
    · exact Or.inl (leadMatches_append p q _ h1)
    · exact Or.inr (ih h2)

/-- Every element of `transcriptSeqs c es` exceeds the counter `c`. -/
theorem transcriptSeqs_mem_gt (es : List OutEvent) :
    ∀ c x, x ∈ transcriptSeqs c es → c < x := by
  induction es with
  | nil => intro c x h; exact absurd h (by simp [transcriptSeqs])
  | cons e tl ih =>
    intro c x h
    cases e with
    | control => exact ih c x h
    | transcript =>
      simp only [transcriptSeqs, List.mem_cons] at h
      rcases h with h | h
      · omega
      · have := ih (c + 1) x h; omega

/-- From any counter, the transcript sequence numbers strictly increase. -/
theorem transcriptSeqs_strictIncr (es : List OutEvent) :
    ∀ c, strictIncr (transcriptSeqs c es) = true := by
  induction es with
  | nil => intro c; rfl
  | cons e tl ih =>
    intro c
    cases e with
    | control => exact ih c
    | transcript =>
      simp only [transcriptSeqs]
      rcases htl : transcriptSeqs (c + 1) tl with _ | ⟨h2, t2⟩
      · rfl
      · have hmem : h2 ∈ transcriptSeqs (c + 1) tl := by rw [htl]; exact List.mem_cons_self _ _
        have hgt := transcriptSeqs_mem_gt tl (c + 1) h2 hmem
        have hrest := ih (c + 1)
        rw [htl] at hrest
        simp only [strictIncr, Bool.and_eq_true, decide_eq_true_eq]
        exact ⟨by omega, hrest⟩

/-- One IDLE-unvoiced step changes the buffer's frame count by at most one
in each direction:  the new frame is appended and at most the single
oldest frame is evicted. -/
theorem idleUnvoicedStep_length (b : List Nat) (c : Nat) :
    (idleUnvoicedStep b c).length = b.length + 1 ∨
      (idleUnvoicedStep b c).length = b.length := by
  unfold idleUnvoicedStep
  by_cases h : preSpeechPadSamples < (b ++ [c]).sum
  · right
    rw [if_pos h, List.length_tail, List.length_append]
    simp
  · left
    rw [if_neg h, List.length_append]
    rfl

/- ===================== C1 ===================== -/

/-- C1, counterexample: on a socket opened with source `mic`, the finals
carry `speaker = "user"`, not `speaker = "candidate"` as claimed. -/
theorem speaker_mic_is_user_not_candidate :
    speakerFor "mic" = "user" ∧ speakerFor "mic" ≠ "candidate" := by
  constructor
  · rfl
  · decide

/-- C1, amended: the speaker field of every final (and partial) is a
function of the session's source alone: `"interviewer"` on a socket
opened with source `sys`, and `"user"` on any other source, in
particular `mic`. -/
theorem speaker_determined_by_source :
    speakerFor "sys" = "interviewer" ∧ speakerFor "mic" = "user" ∧
      ∀ s : String, speakerFor s = "interviewer" ∨ speakerFor s = "user" := by
  refine ⟨rfl, rfl, fun s => ?_⟩
  unfold speakerFor
  by_cases h : s = "sys" <;> simp [h]

/- ===================== C2 ===================== -/

/-- C2: the header parse of a 25-byte slice never fails, so a 34-byte
headerless PCM payload loses its 32 leading bytes (only 2 bytes survive);
a 27-byte payload keeps only the 2 bytes after offset 25; only payloads
shorter than 25 bytes are interpreted whole. -/
theorem extractAudio_headerless_loses_leading_bytes :
    extractAudio (List.replicate 34 7) = List.replicate 2 7 ∧
      extractAudio (List.replicate 27 7) = List.replicate 2 7 ∧
      extractAudio (List.replicate 24 7) = List.replicate 24 7 := by
  refine ⟨?_, ?_, ?_⟩ <;> decide

/- ===================== C4 ===================== -/

/-- C4, counterexample: for a 1-second segment (16000 samples) the code
waits `min(max(2·1 + 1, 2), 6) = 3` seconds, while the claimed formula
`min(max(2·duration, 2), 6)` gives 2 seconds. -/
theorem segment_timeout_formula_differs :
    segmentTimeout 16000 = 3 ∧ claimSegmentTimeout 16000 = 2 ∧
      segmentTimeout 16000 ≠ claimSegmentTimeout 16000 := by
  refine ⟨?_, ?_, ?_⟩ <;> norm_num [segmentTimeout, claimSegmentTimeout, min_def, max_def]

/-- C4, amended: the final recognition timeout is
`min(max(2·duration + 1 s, 2 s), 6 s)` (clamped to `[2 s, 6 s]`), and a
timed-out segment yields the empty raw text, so the final is silently
skipped. -/
theorem segment_timeout_amended (n : Nat) :
    segmentTimeout n = min (max (2 * ((n : ℚ) / 16000) + 1) 2) 6 ∧
      2 ≤ segmentTimeout n ∧ segmentTimeout n ≤ 6 ∧
      processSegmentEmits RecogResult.timeout = false := by
  refine ⟨by rw [segmentTimeout]; ring_nf, ?_, ?_, rfl⟩
  · exact le_min (le_max_right _ _) (by norm_num)
  · exact min_le_right _ _

/- ===================== C5 ===================== -/

/-- C5, counterexample: a reachable connection trace — the `connected`
info message followed by the `system audio started` info message — emits
the seq values `[0, 0]`, which are not strictly increasing. -/
theorem gateway_seqs_not_strictly_increasing :
    gatewaySeqs [OutEvent.control, OutEvent.control] = [0, 0] ∧
      strictIncr [0, 0] = false := by
  exact ⟨rfl, rfl⟩

/-- C5, amended: the seq values on `partial` and `final` messages
(produced by `next_seq`) are strictly increasing over the connection;
`info`/`error` control messages instead carry the constant seq 0, so the
claim holds only for the transcript messages. -/
theorem transcript_seqs_strictly_increasing (es : List OutEvent) :
    strictIncr (transcriptSeqs 0 es) = true :=
  transcriptSeqs_strictIncr es 0

/- ===================== C6 ===================== -/

/-- C6, counterexample: from the reachable pre-roll buffer holding one
100 ms frame (1600 samples ≤ 2400), an unvoiced 200 ms frame
(3200 samples) leaves a buffer of 3200 samples > `PRE_SPEECH_PADDING`
(2400 samples): the single `pop(0)` does not restore the bound. -/
theorem preroll_step_exceeds_padding :
    ([1600] : List Nat).sum ≤ preSpeechPadSamples ∧
      idleUnvoicedStep [1600] 3200 = [3200] ∧
      preSpeechPadSamples < (idleUnvoicedStep [1600] 3200).sum := by
  refine ⟨by decide, by decide, by decide⟩

/-- C6, amended: the IDLE-unvoiced step appends the frame and evicts at
most the single oldest frame when the total exceeds `PRE_SPEECH_PADDING`
(an `if`, not a `while`); the claimed bound `total ≤ PRE_SPEECH_PADDING`
after every step is preserved when all buffered frames have the same
sample count as the incoming frame, but not for heterogeneous frames. -/
theorem preroll_step_bound_uniform (b : List Nat) (d : Nat)
    (huni : ∀ x ∈ b, x = d) (hsum : b.sum ≤ preSpeechPadSamples) :
    (idleUnvoicedStep b d).sum ≤ preSpeechPadSamples ∧
      ((idleUnvoicedStep b d).length = b.length + 1 ∨
        (idleUnvoicedStep b d).length = b.length) := by
  refine ⟨?_, idleUnvoicedStep_length b d⟩
  unfold idleUnvoicedStep
  by_cases h : preSpeechPadSamples < (b ++ [d]).sum
  · simp only [h, if_pos]
    cases b with
    | nil => simp
    | cons x xs =>
      have hx : x = d := huni x (List.mem_cons_self _ _)
      simp only [List.cons_append, List.tail_cons, List.sum_append, List.sum_cons,
        List.sum_nil] at *
      omega
  · simp only [h, if_neg, not_false_iff]
    omega

/-- C6, witness: the amended bound applied to the uniform buffer
`[1600]` with an incoming 1600-sample frame. -/
theorem preroll_step_bound_uniform_witness :
    (idleUnvoicedStep [1600] 1600).sum ≤ preSpeechPadSamples :=
  (preroll_step_bound_uniform [1600] 1600 (by decide) (by decide)).1

/- ===================== C3 ===================== -/

/-- For non-empty texts, the source's `_is_similar_text` coincides with
the spec-shaped predicate using the STRICT length-ratio test `> 0.7`. -/
theorem isSimilarText_eq_strict (t1 t2 : List Char) (h1 : t1 ≠ []) (h2 : t2 ≠ []) :
    isSimilarText t1 t2 = specSimilarStrict t1 t2 := by
  have e1 : t1.isEmpty = false := by
    cases t1 with
    | nil => exact absurd rfl h1
    | cons a l => rfl
  have e2 : t2.isEmpty = false := by
    cases t2 with
    | nil => exact absurd rfl h2
    | cons a l => rfl
  unfold isSimilarText specSimilarStrict
  rw [e1, e2]
  simp only [Bool.or_self, Bool.false_eq_true, if_false]
  by_cases heq : t1 = t2
  · subst heq
    simp
  · have hbeq : (t1 == t2) = false := by
      simp [heq]
    rw [hbeq]
    simp only [Bool.false_eq_true, if_false]
    by_cases hc : cleanText t1 = cleanText t2
    · have : (cleanText t1 == cleanText t2) = true := by simp [hc]
      rw [this]
      simp
    · have hcb : (cleanText t1 == cleanText t2) = false := by simp [hc]
      rw [hcb]
      simp only [Bool.false_eq_true, if_false, Bool.false_or, Bool.not_false, Bool.and_true]
      by_cases hsub : (containsSub (cleanText t1) (cleanText t2)
          || containsSub (cleanText t2) (cleanText t1)) = true
      · rw [hsub]
        by_cases hR : 7 * max (cleanText t1).length (cleanText t2).length
            < 10 * min (cleanText t1).length (cleanText t2).length
        · have hmin : 0 < min (cleanText t1).length (cleanText t2).length := by
            rcases Nat.le_total (cleanText t1).length (cleanText t2).length with hle | hle
            · rw [Nat.min_eq_left hle] at *
              rw [Nat.max_eq_right hle] at hR
              omega
            · rw [Nat.min_eq_right hle] at *
              rw [Nat.max_eq_left hle] at hR
              omega
          have hp1 : 0 < (cleanText t1).length := lt_of_lt_of_le hmin (Nat.min_le_left _ _)
          have hp2 : 0 < (cleanText t2).length := lt_of_lt_of_le hmin (Nat.min_le_right _ _)
          simp [hR, hp1, hp2]
        · simp [hR]
      · have hsub' : (containsSub (cleanText t1) (cleanText t2)
            || containsSub (cleanText t2) (cleanText t1)) = false := by
          simp only [Bool.not_eq_true] at hsub
          exact hsub
        rw [hsub']
        simp

/-- C3, counterexample: with stripped lengths 7 and 10 the ratio is
exactly 0.7; the previous final strictly contains the new one, the claim
demands suppression (ratio ≥ 0.7), but the code's strict `> 0.7` test
fails and the final is emitted. -/
theorem dedup_ratio_boundary_not_suppressed :
    suppressFinal 1 "abcdefg".toList "abcdefghij".toList = false ∧
      (1 : ℚ) < duplicateThreshold ∧
      claimSimilarGeq "abcdefg".toList "abcdefghij".toList = true := by
  refine ⟨by decide, by decide, by decide⟩

/-- C3, amended: a final is suppressed iff the previous final was
emitted less than 2 s earlier and the texts are equal after stripping
punctuation/whitespace, or one stripped text strictly contains the other
with length ratio STRICTLY greater than 0.7. -/
theorem dedup_suppression_characterization (dt : ℚ) (t1 t2 : List Char)
    (h1 : t1 ≠ []) (h2 : t2 ≠ []) :
    suppressFinal dt t1 t2 =
      (decide (dt < duplicateThreshold) && specSimilarStrict t1 t2) := by
  unfold suppressFinal
  rw [isSimilarText_eq_strict t1 t2 h1 h2]

/-- C3, witness for the amended characterization at a concrete pair of
non-empty texts. -/
theorem dedup_suppression_characterization_witness :
    "abcdefgh".toList ≠ ([] : List Char) ∧
      suppressFinal 1 "abcdefgh".toList "abcdefghij".toList =
        (decide ((1 : ℚ) < duplicateThreshold)
          && specSimilarStrict "abcdefgh".toList "abcdefghij".toList) :=
  ⟨by decide, dedup_suppression_characterization 1 _ _ (by decide) (by decide)⟩

/- ===================== C7 ===================== -/

/-- One queue operation preserves the capacity bound. -/
theorem qStep_length_le {α : Type} (q : List α) (op : QOp α) (h : q.length ≤ qMax) :
    (qStep q op).length ≤ qMax := by
  cases op with
  | put x =>
    show (enqueueDropOldest q x).length ≤ qMax
    unfold enqueueDropOldest
    by_cases hf : qMax ≤ q.length
    · rw [if_pos hf, List.length_append, List.length_tail]
      simp only [List.length_singleton]
      unfold qMax at *
      omega
    · rw [if_neg hf, List.length_append]
      simp only [List.length_singleton]
      unfold qMax at *
      omega
  | take =>
    show q.tail.length ≤ qMax
    rw [List.length_tail]
    omega

/-- Any interleaving starting within the bound stays within it. -/
theorem foldl_qStep_length_le {α : Type} (ops : List (QOp α)) :
    ∀ q : List α, q.length ≤ qMax → (ops.foldl qStep q).length ≤ qMax := by
  induction ops with
  | nil => intro q h; exact h
  | cons op tl ih => intro q h; exact ih _ (qStep_length_le q op h)

/-- C7: over every interleaving of enqueues and dequeues the audio queue
holds at most `Q_MAX = 12` frames; an enqueue always leaves the new
frame as the newest element, and an enqueue against a full queue evicts
exactly the oldest frame. -/
theorem audio_queue_backpressure {α : Type} (ops : List (QOp α)) (x : α) :
    (runQ ops).length ≤ qMax ∧
      (runQ (ops ++ [QOp.put x])).getLast? = some x ∧
      ((runQ ops).length = qMax →
        runQ (ops ++ [QOp.put x]) = (runQ ops).tail ++ [x]) := by
  refine ⟨foldl_qStep_length_le ops [] (by simp [qMax]), ?_, ?_⟩
  · rw [runQ, List.foldl_append]
    simp only [List.foldl_cons, List.foldl_nil]
    show (enqueueDropOldest (List.foldl qStep [] ops) x).getLast? = some x
    unfold enqueueDropOldest
    by_cases hf : qMax ≤ (List.foldl qStep [] ops).length
    · rw [if_pos hf, List.getLast?_concat]
    · rw [if_neg hf, List.getLast?_concat]
  · intro hfull
    rw [runQ, List.foldl_append]
    simp only [List.foldl_cons, List.foldl_nil]
    show enqueueDropOldest (List.foldl qStep [] ops) x = (runQ ops).tail ++ [x]
    unfold enqueueDropOldest
    rw [runQ] at hfull
    rw [if_pos (le_of_eq hfull.symm), runQ]

/-- C7, witness: after twelve enqueues the queue is full, and a further
enqueue evicts the oldest frame and appends the new one. -/
theorem audio_queue_backpressure_witness :
    (runQ (List.replicate 12 (QOp.put (1 : Nat)))).length = qMax ∧
      runQ (List.replicate 12 (QOp.put (1 : Nat)) ++ [QOp.put 99]) =
        (runQ (List.replicate 12 (QOp.put (1 : Nat)))).tail ++ [99] :=
  ⟨by decide, (audio_queue_backpressure (List.replicate 12 (QOp.put 1)) 99).2.2 (by decide)⟩

/- ===================== C8 ===================== -/

/-- Boolean characterization of the if/elif ladder of `LLMAPI.chat`,
assuming the gpt-4o-mini test is subsumed by the gpt-4o test. -/
theorem negotiateFlags_eq (a b c d e : Bool) (he : e = true → d = true) :
    (negotiateFlags a b c d e).1 = (a || b || c || d) ∧
      (negotiateFlags a b c d e).2 = (!(a || b) && (c || d)) := by
  cases a <;> cases b <;> cases c <;> cases d <;> cases e <;>
    simp_all [negotiateFlags]

/-- C8, counterexample: for model `o1-mini` (glob `o1*`) on the default
OpenAI base URL, the claim demands `max_completion_tokens` without
`max_tokens` and no `temperature`, but `LLMAPI.chat` has no `o1`/`o3`
handling: it sends `max_tokens` and a custom `temperature`. -/
theorem chat_params_o1_mismatch :
    buildChatRequest "o1-mini".toList "https://api.openai.com/v1".toList =
      { hasMaxCompletionTokens := false, hasMaxTokens := true, hasTemperature := true } ∧
      claimUsesMaxCompletionTokens "o1-mini".toList "https://api.openai.com/v1".toList = true ∧
      claimOmitsTemperature "o1-mini".toList = true := by
  refine ⟨by decide, by decide, by decide⟩

/-- C8, amended: `LLMAPI.chat` uses `max_completion_tokens` (omitting
`max_tokens`) exactly when the lowercased model name CONTAINS `claude`,
`gpt-5` or `gpt-4o`, or the lowercased base URL contains `anthropic`;
it omits `temperature` exactly when the model name contains `gpt-5` or
`gpt-4o` and the claude/anthropic branch did not fire first.  Models
matching `o1*`/`o3*` get no special handling. -/
theorem chat_params_characterization (model baseUrl : List Char) :
    (buildChatRequest model baseUrl).hasMaxCompletionTokens =
        (containsSub "claude".toList (toLowerList model)
          || containsSub "anthropic".toList (toLowerList baseUrl)
          || containsSub "gpt-5".toList (toLowerList model)
          || containsSub "gpt-4o".toList (toLowerList model)) ∧
      (buildChatRequest model baseUrl).hasMaxTokens =
        !(buildChatRequest model baseUrl).hasMaxCompletionTokens ∧
      (buildChatRequest model baseUrl).hasTemperature =
        !((!(containsSub "claude".toList (toLowerList model)
            || containsSub "anthropic".toList (toLowerList baseUrl)))
          && (containsSub "gpt-5".toList (toLowerList model)
            || containsSub "gpt-4o".toList (toLowerList model))) := by
  have hmini : containsSub "gpt-4o-mini".toList (toLowerList model) = true →
      containsSub "gpt-4o".toList (toLowerList model) = true := by
    intro hm
    have hsplit : "gpt-4o-mini".toList = "gpt-4o".toList ++ "-mini".toList := rfl
    rw [hsplit] at hm
    exact containsSub_append "gpt-4o".toList "-mini".toList _ hm
  have key := negotiateFlags_eq
    (containsSub "claude".toList (toLowerList model))
    (containsSub "anthropic".toList (toLowerList baseUrl))
    (containsSub "gpt-5".toList (toLowerList model))
    (containsSub "gpt-4o".toList (toLowerList model))
    (containsSub "gpt-4o-mini".toList (toLowerList model)) hmini
  exact ⟨key.1, rfl, by rw [show (buildChatRequest model baseUrl).hasTemperature
    = !(chatParamFlags model baseUrl).2 from rfl, show chatParamFlags model baseUrl
    = negotiateFlags
        (containsSub "claude".toList (toLowerList model))
        (containsSub "anthropic".toList (toLowerList baseUrl))
        (containsSub "gpt-5".toList (toLowerList model))
        (containsSub "gpt-4o".toList (toLowerList model))
        (containsSub "gpt-4o-mini".toList (toLowerList model)) from rfl, key.2]⟩

/- ===================== C9 ===================== -/

/-- Python deque append expressed as append-then-drop-from-the-left. -/
theorem dequeAppend_eq_drop (h : List HistEntry) (e : HistEntry) :
    dequeAppend h e = (h ++ [e]).drop ((h.length + 1) - chatHistoryMax) := by
  unfold dequeAppend
  by_cases hlt : chatHistoryMax < (h ++ [e]).length
  · rw [if_pos hlt, List.length_append]
    rfl
  · rw [if_neg hlt]
    have hz : (h.length + 1) - chatHistoryMax = 0 := by
      rw [List.length_append] at hlt
      simp only [List.length_singleton] at hlt
      omega
    rw [hz, List.drop_zero]

/-- Appending to a bounded history keeps it bounded. -/
theorem dequeAppend_length_le (h : List HistEntry) (e : HistEntry)
    (hle : h.length ≤ chatHistoryMax) :
    (dequeAppend h e).length ≤ chatHistoryMax := by
  rw [dequeAppend_eq_drop, List.length_drop, List.length_append]
  simp only [List.length_singleton]
  omega

/-- A run of `add_to_history` calls keeps exactly the newest
`CHAT_HISTORY_MAX` successfully appended entries. -/
theorem runHistory_eq_drop (inputs : List (List Char × List Char)) :
    ∀ h : List HistEntry, h.length ≤ chatHistoryMax →
      runHistory h inputs =
        (h ++ inputs.filterMap mkEntry?).drop
          ((h ++ inputs.filterMap mkEntry?).length - chatHistoryMax) := by
  induction inputs with
  | nil =>
    intro h hle
    simp only [runHistory, List.foldl_nil, List.filterMap_nil, List.append_nil]
    rw [Nat.sub_eq_zero_of_le hle, List.drop_zero]
  | cons p tl ih =>
    intro h hle
    by_cases hp : pyStrip p.1 = []
    · have hskip : add_to_history h p.1 p.2 = h := by
        unfold add_to_history
        rw [if_pos hp]
      have hmk : mkEntry? p = none := by
        unfold mkEntry?
        rw [if_pos hp]
      simp only [runHistory, List.foldl_cons, List.filterMap_cons, hmk, hskip]
      exact ih h hle
    · have hmk : mkEntry? p = some { content := pyStrip p.1, speaker := p.2 } := by
        unfold mkEntry?
        rw [if_neg hp]
      have hadd : add_to_history h p.1 p.2 =
          dequeAppend h { content := pyStrip p.1, speaker := p.2 } := by
        unfold add_to_history
        rw [if_neg hp]
      have hlen' := dequeAppend_length_le h { content := pyStrip p.1, speaker := p.2 } hle
      have hrec := ih _ hlen'
      simp only [runHistory, List.foldl_cons, List.filterMap_cons, hmk, hadd]
      simp only [runHistory] at hrec
      rw [hrec, dequeAppend_eq_drop]
      have hk : (h.length + 1) - chatHistoryMax
          ≤ (h ++ [({ content := pyStrip p.1, speaker := p.2 } : HistEntry)]).length := by
        rw [List.length_append]
        simp only [List.length_singleton]
        omega
      rw [← List.drop_append_of_le_length hk, List.drop_drop]
      have hassoc : (h ++ [({ content := pyStrip p.1, speaker := p.2 } : HistEntry)])
            ++ tl.filterMap mkEntry?
          = h ++ ({ content := pyStrip p.1, speaker := p.2 } :: tl.filterMap mkEntry?) := by
        rw [List.append_assoc, List.singleton_append]
      rw [hassoc]
      congr 1
      rw [List.length_drop]
      simp only [List.length_append, List.length_singleton, List.length_cons]
      omega

/-- C9: after any sequence of `add_to_history` calls the history holds
at most `CHAT_HISTORY_MAX = 50` entries; it equals the most recent
successfully appended entries in append order, and once more than 50
appends succeeded its length is exactly 50 (the oldest were dropped). -/
theorem history_bound_and_recency (inputs : List (List Char × List Char)) :
    runHistory [] inputs =
        (inputs.filterMap mkEntry?).drop
          ((inputs.filterMap mkEntry?).length - chatHistoryMax) ∧
      (runHistory [] inputs).length ≤ chatHistoryMax ∧
      (chatHistoryMax < (inputs.filterMap mkEntry?).length →
        (runHistory [] inputs).length = chatHistoryMax) := by
  have hmain := runHistory_eq_drop inputs [] (by simp)
  simp only [List.nil_append] at hmain
  refine ⟨hmain, ?_, ?_⟩
  · rw [hmain, List.length_drop]
    omega
  · intro hgt
    rw [hmain, List.length_drop]
    omega

set_option maxRecDepth 4000 in
/-- C9, witness: 51 successful appends leave exactly 50 entries. -/
theorem history_bound_and_recency_witness :
    chatHistoryMax < ((List.replicate 51 ("a".toList, "u".toList)).filterMap mkEntry?).length ∧
      (runHistory [] (List.replicate 51 ("a".toList, "u".toList))).length = chatHistoryMax :=
  ⟨by decide,
    (history_bound_and_recency (List.replicate 51 ("a".toList, "u".toList))).2.2 (by decide)⟩

/- ===================== C10 ===================== -/

/-- C10: `add_to_history` with empty or whitespace-only content leaves
the history completely unchanged; with non-empty content the stored
entry's content is the input stripped of leading and trailing
whitespace (and it becomes the newest entry). -/
theorem add_to_history_strip_behavior (h : List HistEntry) (c sp : List Char) :
    (pyStrip c = [] → add_to_history h c sp = h) ∧
      (pyStrip c ≠ [] →
        (add_to_history h c sp).getLast? =
          some { content := pyStrip c, speaker := sp }) := by
  constructor
  · intro hempty
    unfold add_to_history
    rw [if_pos hempty]
  · intro hne
    unfold add_to_history
    rw [if_neg hne, dequeAppend_eq_drop]
    have hk : (h.length + 1) - chatHistoryMax ≤ h.length := by
      simp only [chatHistoryMax]
      omega
    rw [List.drop_append_of_le_length hk, List.getLast?_concat]

/-- C10, witness: a whitespace-only call leaves the empty history empty,
and `" hi "` is stored stripped as the newest entry. -/
theorem add_to_history_strip_behavior_witness :
    add_to_history [] "   ".toList "u".toList = [] ∧
      (add_to_history [] " hi ".toList "u".toList).getLast? =
        some { content := pyStrip " hi ".toList, speaker := "u".toList } :=
  ⟨(add_to_history_strip_behavior [] "   ".toList "u".toList).1 (by decide),
    (add_to_history_strip_behavior [] " hi ".toList "u".toList).2 (by decide)⟩
